import Mathlib

/-!
Verification of the pgstratify match / rule-resolution engine and the
locking scheduler, as a shallow embedding of the source.

Sources embedded here:
- queries/queries.go: TablesTempTab, RulesetsSubTempTab, RulesetsSettingsTempTab,
  RuleMatchQuery, RuleMatchDisplayModeQuery (the 2022 versions carrying
  owner and case_sensitive columns);
- dbinterface: UpdateTableOptions (lock-strength regexp, lock acquisition
  error classification, per-parameter subtransaction loop, dry-run);
- main: the two-phase scheduler (connection pool sizing, retry collection,
  error branching) and RunStats.UpdateFromResult.

Postgres regular-expression matching (operators in the SQL join) is kept
abstract: every definition of the match step is parameterised by two Bool
valued functions, one for case-sensitive and one for case-insensitive
matching.
-/

namespace Pgstratify

/-- One matchgroup of the configuration, as encoded into json and unpacked by
TablesTempTab into the columns schemare, tablere, ownerre, case_sensitive,
ruleset (queries.go lines 48-51). -/
structure Matchgroup where
  schemare : String
  tablere : String
  ownerre : String
  caseSensitive : Bool
  ruleset : String
deriving DecidableEq

/-- One pg_class row as read by TablesTempTab: namespace, name, owner,
persistence, kind and the planner row estimate reltuples. -/
structure Relation where
  relnamespace : String
  relname : String
  owner : String
  relpersistence : Char
  relkind : Char
  reltuples : Int
deriving DecidableEq

/-- Candidate filter of TablesTempTab: relpersistence = p and relkind in
(r, m). -/
def isCandidate (r : Relation) : Bool :=
  r.relpersistence == 'p' && (r.relkind == 'r' || r.relkind == 'm')

/-- Join condition of TablesTempTab: when case_sensitive is false the three
patterns are matched case-insensitively, otherwise case-sensitively. -/
def groupMatches (rmatch rmatchCI : String → String → Bool)
    (g : Matchgroup) (r : Relation) : Bool :=
  (!g.caseSensitive && rmatchCI r.relnamespace g.schemare
      && rmatchCI r.relname g.tablere && rmatchCI r.owner g.ownerre)
  || (g.caseSensitive && rmatch r.relnamespace g.schemare
      && rmatch r.relname g.tablere && rmatch r.owner g.ownerre)

/-- Row numbering of the matchgroup list, modelling
row_number() over () in config order (column tablematchnum, 1-based). -/
def numberFrom (n : Nat) : List Matchgroup → List (Nat × Matchgroup)
  | [] => []
  | g :: gs => (n, g) :: numberFrom (n + 1) gs

/-- SQL min aggregate over a list of numbers, modelling
min(tablematchnum) over (partition by relnamespace, relname). -/
def minNat? : List Nat → Option Nat
  | [] => none
  | n :: ns =>
    match minNat? ns with
    | none => some n
    | some m => some (min n m)

/-- The tablematchnum values of all matchgroups whose join condition holds
for relation r. -/
def matchingNums (rmatch rmatchCI : String → String → Bool)
    (gs : List Matchgroup) (r : Relation) : List Nat :=
  ((numberFrom 1 gs).filter
      (fun pr => groupMatches rmatch rmatchCI pr.2 r)).map Prod.fst

/-- Matchgroup assignment of TablesTempTab: a candidate relation keeps the
row with tablematchnum = mintablematchnum, in other words the smallest
matching matchgroup number; a non-candidate is filtered out. -/
def assignedGroupNum (rmatch rmatchCI : String → String → Bool)
    (gs : List Matchgroup) (r : Relation) : Option Nat :=
  if isCandidate r then minNat? (matchingNums rmatch rmatchCI gs r) else none

theorem minNat?_mem {l : List Nat} : ∀ {m : Nat}, minNat? l = some m → m ∈ l := by
  induction l with
  | nil => intro m h; simp [minNat?] at h
  | cons a t ih =>
    intro m h
    rw [minNat?] at h
    cases ht : minNat? t with
    | none => rw [ht] at h; simp at h; simp [h]
    | some m' =>
      rw [ht] at h
      simp at h
      rcases min_choice a m' with hc | hc <;> rw [hc] at h
      · simp [← h]
      · exact List.mem_cons_of_mem _ (h ▸ ih ht)

theorem minNat?_le {l : List Nat} : ∀ {m : Nat}, minNat? l = some m →
    ∀ x ∈ l, m ≤ x := by
  induction l with
  | nil => intro m h; simp [minNat?] at h
  | cons a t ih =>
    intro m h x hx
    rw [minNat?] at h
    cases ht : minNat? t with
    | none =>
      rw [ht] at h
      simp at h
      subst h
      rcases List.mem_cons.mp hx with hx | hx
      · omega
      · cases t with
        | nil => simp at hx
        | cons b t' =>
          rw [minNat?] at ht
          cases ht' : minNat? t' <;> rw [ht'] at ht <;> simp at ht
    | some m' =>
      rw [ht] at h
      simp at h
      subst h
      rcases List.mem_cons.mp hx with hx | hx
      · subst hx; exact min_le_left _ _
      · exact le_trans (min_le_right _ _) (ih ht x hx)

theorem minNat?_cons_of_le {a : Nat} {l : List Nat} (h : ∀ x ∈ l, a ≤ x) :
    minNat? (a :: l) = some a := by
  rw [minNat?]
  cases hm : minNat? l with
  | none => rfl
  | some m =>
    have := h m (minNat?_mem hm)
    simp [min_eq_left this]

theorem numberFrom_fst_ge {gs : List Matchgroup} :
    ∀ {n : Nat} {pr : Nat × Matchgroup}, pr ∈ numberFrom n gs → n ≤ pr.1 := by
  induction gs with
  | nil => intro n pr h; simp [numberFrom] at h
  | cons g gs ih =>
    intro n pr h
    rw [numberFrom] at h
    rcases List.mem_cons.mp h with h | h
    · subst h; exact Nat.le_refl _
    · have := ih h
      omega

theorem minNat?_filter_numberFrom (P : Nat × Matchgroup → Bool) :
    ∀ (gs : List Matchgroup) (n : Nat),
      minNat? (((numberFrom n gs).filter P).map Prod.fst)
        = ((numberFrom n gs).find? P).map Prod.fst := by
  intro gs
  induction gs with
  | nil => intro n; rfl
  | cons g gs ih =>
    intro n
    rw [numberFrom]
    cases hP : P (n, g) with
    | true =>
      rw [List.filter_cons_of_pos hP, List.find?_cons_of_pos _ hP]
      rw [List.map_cons]
      rw [minNat?_cons_of_le]
      · rfl
      · intro x hx
        rcases List.mem_map.mp hx with ⟨pr, hpr, hfst⟩
        have hmem := List.mem_of_mem_filter hpr
        have := numberFrom_fst_ge hmem
        omega
    | false =>
      rw [List.filter_cons_of_neg (by simp [hP]), List.find?_cons_of_neg _ (by simp [hP])]
      exact ih (n + 1)

theorem find?_numberFrom_spec (P : Nat × Matchgroup → Bool) :
    ∀ (gs : List Matchgroup) (n : Nat) (pr : Nat × Matchgroup),
      (numberFrom n gs).find? P = some pr →
        pr ∈ numberFrom n gs ∧ P pr = true ∧
          ∀ q ∈ numberFrom n gs, q.1 < pr.1 → P q = false := by
  intro gs
  induction gs with
  | nil => intro n pr h; simp [numberFrom] at h
  | cons g gs ih =>
    intro n pr h
    rw [numberFrom] at h ⊢
    cases hP : P (n, g) with
    | true =>
      rw [List.find?_cons_of_pos _ hP] at h
      cases h
      refine ⟨List.mem_cons_self _ _, hP, ?_⟩
      intro q hq hlt
      rcases List.mem_cons.mp hq with hq | hq
      · subst hq; omega
      · have := numberFrom_fst_ge hq
        omega
    | false =>
      rw [List.find?_cons_of_neg _ (by simp [hP])] at h
      rcases ih (n + 1) pr h with ⟨hmem, hpr, hmin⟩
      refine ⟨List.mem_cons_of_mem _ hmem, hpr, ?_⟩
      intro q hq hlt
      rcases List.mem_cons.mp hq with hq | hq
      · subst hq; exact hP
      · exact hmin q hq hlt

/-- Claim C1: for every candidate relation (permanent, kind table or
materialized view) and every ordered matchgroup list, the match step assigns
the relation to at most one matchgroup, namely the first matchgroup in config
order whose schema, table and owner patterns all match the relation
(case-sensitively or not per the matchgroup flag); a relation assigned to an
earlier matchgroup is never reassigned by any later matchgroup. -/
theorem c1_first_match_wins (rmatch rmatchCI : String → String → Bool)
    (gs : List Matchgroup) (r : Relation) :
    (assignedGroupNum rmatch rmatchCI gs r =
        if isCandidate r then
          ((numberFrom 1 gs).find?
              (fun pr => groupMatches rmatch rmatchCI pr.2 r)).map Prod.fst
        else none)
    ∧ (∀ i, assignedGroupNum rmatch rmatchCI gs r = some i →
        ∃ g, (i, g) ∈ numberFrom 1 gs ∧ groupMatches rmatch rmatchCI g r = true ∧
          ∀ q ∈ numberFrom 1 gs, q.1 < i →
            groupMatches rmatch rmatchCI q.2 r = false)
    ∧ (∀ i j, assignedGroupNum rmatch rmatchCI gs r = some i →
        assignedGroupNum rmatch rmatchCI gs r = some j → i = j) := by
  have hmain : assignedGroupNum rmatch rmatchCI gs r =
      if isCandidate r then
        ((numberFrom 1 gs).find?
            (fun pr => groupMatches rmatch rmatchCI pr.2 r)).map Prod.fst
      else none := by
    rw [assignedGroupNum, matchingNums, minNat?_filter_numberFrom]
  refine ⟨hmain, ?_, ?_⟩
  · intro i hi
    rw [hmain] at hi
    by_cases hc : isCandidate r = true
    · rw [if_pos hc] at hi
      rcases Option.map_eq_some'.mp hi with ⟨pr, hfind, hfst⟩
      rcases find?_numberFrom_spec _ gs 1 pr hfind with ⟨hmem, hpr, hmin⟩
      subst hfst
      exact ⟨pr.2, by simpa using hmem, hpr, hmin⟩
    · rw [if_neg hc] at hi
      exact absurd hi (by simp)
  · intro i j hi hj
    rw [hi] at hj
    exact (Option.some.injEq _ _).mp hj

/-- Demonstration regular-expression matcher used in witnesses: a value
matches a pattern when they are equal. -/
def rmatchDemo (s pat : String) : Bool := s == pat

/-- Witness matchgroup whose patterns name schema s1. -/
def mgDemo1 : Matchgroup := ⟨"s1", "t", "o", true, "a"⟩

/-- Witness matchgroup whose patterns name schema s2. -/
def mgDemo2 : Matchgroup := ⟨"s2", "t", "o", true, "b"⟩

/-- Witness relation: a permanent ordinary table in schema s2. -/
def relDemo : Relation := ⟨"s2", "t", "o", 'p', 'r', 100⟩

theorem c1_first_match_wins_witness :
    assignedGroupNum rmatchDemo rmatchDemo [mgDemo1, mgDemo2] relDemo = some 2 := by
  have h := (c1_first_match_wins rmatchDemo rmatchDemo [mgDemo1, mgDemo2] relDemo).1
  rw [h]
  decide

/-- One rule of a ruleset: the minrows threshold and the settings map
(a parameter name mapped to none means the parameter is reset). -/
structure Rule where
  minrows : Nat
  settings : List (String × Option String)
deriving DecidableEq

/-- A ruleset is a list of rules, as in the configuration file. -/
abbrev Ruleset := List Rule

/-- Threshold order on rules, the order by minrows asc of RulesetsSubTempTab. -/
def ruleLE (a b : Rule) : Prop := a.minrows ≤ b.minrows

instance : DecidableRel ruleLE := fun _ _ => Nat.decLe _ _

instance : IsTotal Rule ruleLE := ⟨fun _ _ => Nat.le_total _ _⟩

instance : IsTrans Rule ruleLE := ⟨fun _ _ _ => Nat.le_trans⟩

/-- Rulenum assignment of RulesetsSubTempTab:
row_number() over (partition by ruleset order by minrows asc) numbers the
rules of one ruleset in ascending minrows order. -/
def sortRules (rs : Ruleset) : Ruleset := List.insertionSort ruleLE rs

/-- Active rules of the rulematch join in RuleMatchQuery: the rules of the
ruleset with reltuples >= minrows, kept in rulenum order. -/
def activeRules (rs : Ruleset) (t : Int) : Ruleset :=
  (sortRules rs).filter (fun r => decide ((r.minrows : Int) ≤ t))

/-- Setting of parameter p in one rule, the settingsjson ->> parameter
column of RulesetsSettingsTempTab (none when p is not a key of the map). -/
def lookupSetting (r : Rule) (p : String) : Option (Option String) :=
  (r.settings.find? (fun s => s.1 == p)).map Prod.snd

/-- True when parameter p is one of the keys of the settings map of rule r
(jsonb_object_keys of RulesetsSettingsTempTab). -/
def mentions (r : Rule) (p : String) : Bool :=
  (r.settings.find? (fun s => s.1 == p)).isSome

/-- Last element of a list, modelling the max(rulenum) row selection of
effective_settings_sub2 over a list already in rulenum order. -/
def lastElem? : List Rule → Option Rule
  | [] => none
  | [a] => some a
  | _ :: b :: l => lastElem? (b :: l)

/-- Parameter resolution of RuleMatchQuery (effective_settings_sub2): among
the active rules whose settings mention p, the row with the largest rulenum,
in other words the last one in minrows-ascending order, provides the
setting. -/
def resolveParam (rs : Ruleset) (t : Int) (p : String) : Option (Option String) :=
  (lastElem? ((activeRules rs t).filter (fun r => mentions r p))).bind
    (fun r => lookupSetting r p)

/-- All parameter names referenced by any active rule, each once
(the join with rulesets_settings, grouped per parameter). -/
def activeParams (rs : Ruleset) (t : Int) : List String :=
  ((activeRules rs t).flatMap (fun r => r.settings.map Prod.fst)).dedup

theorem lastElem?_eq_none {l : List Rule} (h : lastElem? l = none) : l = [] := by
  induction l with
  | nil => rfl
  | cons a t ih =>
    cases t with
    | nil => simp [lastElem?] at h
    | cons b t' =>
      rw [lastElem?] at h
      exact absurd (ih h) (by simp)

theorem lastElem?_mem {l : List Rule} : ∀ {a : Rule}, lastElem? l = some a → a ∈ l := by
  induction l with
  | nil => intro a h; simp [lastElem?] at h
  | cons x t ih =>
    intro a h
    cases t with
    | nil => rw [lastElem?] at h; simp at h; simp [h]
    | cons b t' =>
      rw [lastElem?] at h
      exact List.mem_cons_of_mem _ (ih h)

theorem lastElem?_max {l : List Rule} : l.Pairwise ruleLE →
    ∀ {a : Rule}, lastElem? l = some a → ∀ b ∈ l, b.minrows ≤ a.minrows := by
  induction l with
  | nil => intro _ a h; simp [lastElem?] at h
  | cons x t ih =>
    intro hp a h b hb
    rcases List.pairwise_cons.mp hp with ⟨hx, ht⟩
    cases t with
    | nil =>
      rw [lastElem?] at h
      simp at h
      subst h
      rcases List.mem_cons.mp hb with hb | hb
      · subst hb; exact Nat.le_refl _
      · simp at hb
    | cons c t' =>
      rw [lastElem?] at h
      rcases List.mem_cons.mp hb with hb | hb
      · subst hb
        exact hx a (lastElem?_mem h)
      · exact ih ht h b hb

theorem pairwise_minrows_ne_eq {rs : Ruleset}
    (h : rs.Pairwise (fun a b => a.minrows ≠ b.minrows)) :
    ∀ {a b : Rule}, a ∈ rs → b ∈ rs → a.minrows = b.minrows → a = b := by
  induction rs with
  | nil => intro a b ha _ _; simp at ha
  | cons x t ih =>
    intro a b ha hb heq
    rcases List.pairwise_cons.mp h with ⟨hx, ht⟩
    rcases List.mem_cons.mp ha with ha1 | ha1
    · rcases List.mem_cons.mp hb with hb1 | hb1
      · rw [ha1, hb1]
      · rw [ha1] at heq ⊢
        exact absurd heq (hx b hb1)
    · rcases List.mem_cons.mp hb with hb1 | hb1
      · rw [hb1] at heq ⊢
        exact absurd heq.symm (hx a ha1)
      · exact ih ht ha1 hb1 heq

theorem mentions_of_lookupSetting {r : Rule} {p : String} {v : Option String}
    (h : lookupSetting r p = some v) : mentions r p = true := by
  rw [lookupSetting] at h
  rw [mentions]
  cases hf : r.settings.find? (fun s => s.1 == p) with
  | none => rw [hf] at h; simp at h
  | some s => simp

theorem lookupSetting_of_mentions {r : Rule} {p : String}
    (h : mentions r p = true) : ∃ v, lookupSetting r p = some v := by
  rw [mentions] at h
  rw [lookupSetting]
  cases hf : r.settings.find? (fun s => s.1 == p) with
  | none => rw [hf] at h; simp at h
  | some s => exact ⟨s.2, rfl⟩

theorem mem_activeRules {rs : Ruleset} {t : Int} {r : Rule} :
    r ∈ activeRules rs t ↔ r ∈ rs ∧ (r.minrows : Int) ≤ t := by
  unfold activeRules sortRules
  rw [List.mem_filter]
  rw [(List.perm_insertionSort ruleLE rs).mem_iff]
  simp

theorem activeMentions_pairwise (rs : Ruleset) (t : Int) (p : String) :
    ((activeRules rs t).filter (fun r => mentions r p)).Pairwise ruleLE := by
  have hs : (sortRules rs).Pairwise ruleLE := List.sorted_insertionSort ruleLE rs
  exact (hs.filter _).filter _

theorem mem_activeMentions {rs : Ruleset} {t : Int} {p : String} {r : Rule} :
    r ∈ (activeRules rs t).filter (fun r => mentions r p) ↔
      r ∈ rs ∧ (r.minrows : Int) ≤ t ∧ mentions r p = true := by
  rw [List.mem_filter, mem_activeRules]
  tauto

theorem resolveParam_spec (rs : Ruleset) (t : Int) (p : String) (v : Option String)
    (hdist : rs.Pairwise (fun a b => a.minrows ≠ b.minrows)) :
    resolveParam rs t p = some v ↔
      ∃ r ∈ rs, (r.minrows : Int) ≤ t ∧ lookupSetting r p = some v ∧
        ∀ q ∈ rs, (q.minrows : Int) ≤ t → mentions q p = true →
          q.minrows ≤ r.minrows := by
  constructor
  · intro h
    rw [resolveParam] at h
    cases hL : lastElem? ((activeRules rs t).filter (fun r => mentions r p)) with
    | none => rw [hL] at h; simp at h
    | some r0 =>
      rw [hL] at h
      simp at h
      rcases mem_activeMentions.mp (lastElem?_mem hL) with ⟨hmem, hact, _⟩
      refine ⟨r0, hmem, hact, h, ?_⟩
      intro q hq hqt hqm
      exact lastElem?_max (activeMentions_pairwise rs t p) hL q
        (mem_activeMentions.mpr ⟨hq, hqt, hqm⟩)
  · rintro ⟨r, hr, hrt, hrl, hmax⟩
    have hrm : mentions r p = true := mentions_of_lookupSetting hrl
    have hrF : r ∈ (activeRules rs t).filter (fun r => mentions r p) :=
      mem_activeMentions.mpr ⟨hr, hrt, hrm⟩
    cases hL : lastElem? ((activeRules rs t).filter (fun r => mentions r p)) with
    | none =>
      rw [lastElem?_eq_none hL] at hrF
      simp at hrF
    | some r0 =>
      rcases mem_activeMentions.mp (lastElem?_mem hL) with ⟨h0mem, h0act, h0m⟩
      have h1 : r.minrows ≤ r0.minrows :=
        lastElem?_max (activeMentions_pairwise rs t p) hL r hrF
      have h2 : r0.minrows ≤ r.minrows := hmax r0 h0mem h0act h0m
      have : r = r0 := pairwise_minrows_ne_eq hdist hr h0mem (Nat.le_antisymm h1 h2)
      rw [resolveParam, hL]
      simp [← this, hrl]

/-- Ruleset of the worked example in the claim: a rule at threshold 0
resetting p and a rule at threshold 1000 setting p to x. -/
def exampleRules : Ruleset := [⟨0, [("p", none)]⟩, ⟨1000, [("p", some "x")]⟩]

/-- Claim C2: for every matched relation with row estimate t and its
matchgroup ruleset, exactly the rules with minrows <= t are active, and for
each parameter referenced by an active rule the resolved value is the one
given by the active rule with the highest threshold mentioning that
parameter (higher thresholds mask lower ones per parameter). In particular
with rules (minrows 0, p reset) and (minrows 1000, p = x), a relation with
500 rows resolves p to reset and one with 5000 rows resolves p to x. -/
theorem c2_threshold_masking (rs : Ruleset) (t : Int) (p : String) (v : Option String)
    (hdist : rs.Pairwise (fun a b => a.minrows ≠ b.minrows)) :
    (∀ r : Rule, r ∈ activeRules rs t ↔ r ∈ rs ∧ (r.minrows : Int) ≤ t)
    ∧ (resolveParam rs t p = some v ↔
        ∃ r ∈ rs, (r.minrows : Int) ≤ t ∧ lookupSetting r p = some v ∧
          ∀ q ∈ rs, (q.minrows : Int) ≤ t → mentions q p = true →
            q.minrows ≤ r.minrows)
    ∧ resolveParam exampleRules 500 "p" = some none
    ∧ resolveParam exampleRules 5000 "p" = some (some "x") := by
  refine ⟨fun r => mem_activeRules, resolveParam_spec rs t p v hdist, ?_, ?_⟩
  · decide
  · decide

theorem c2_threshold_masking_witness :
    resolveParam exampleRules 5000 "p" = some (some "x") :=
  (c2_threshold_masking exampleRules 5000 "p" (some "x") (by decide)).2.2.2

/-- One delta of RuleMatchQuery: parameter name, oldsetting from the left
outer join with tableparameters, newsetting from the resolved rule. -/
structure Delta where
  parameter : String
  oldsetting : Option String
  newsetting : Option String
deriving DecidableEq

/-- Current storage parameters of one relation: the tableparameters rows of
its oid, keyed by parameter name (primary key reloid, parameter). -/
abbrev CurParams := List (String × String)

/-- Current setting of parameter p, the left outer join with
tableparameters in RuleMatchQuery. -/
def lookupCur (cur : CurParams) (p : String) : Option String :=
  (cur.find? (fun s => s.1 == p)).map Prod.snd

/-- Delta decision of the effective_settings filter in RuleMatchQuery: a
resolved reset (none) is kept only when the parameter is currently set, and
a resolved value is kept only when the current setting differs from it. -/
def deltaFor (cur : CurParams) (p : String) (resolved : Option String) :
    Option Delta :=
  match resolved with
  | none =>
    match lookupCur cur p with
    | some old => some ⟨p, some old, none⟩
    | none => none
  | some v =>
    if lookupCur cur p = some v then none
    else some ⟨p, lookupCur cur p, some v⟩

/-- Delta list of one relation in RuleMatchQuery. -/
def deltas (rs : Ruleset) (t : Int) (cur : CurParams) : List Delta :=
  (activeParams rs t).filterMap
    (fun p => (resolveParam rs t p).bind (fun v => deltaFor cur p v))

/-- Per-parameter rows of one relation in RuleMatchDisplayModeQuery: the
same join as RuleMatchQuery but without the difference filter. -/
def displayRows (rs : Ruleset) (t : Int) (cur : CurParams) : List Delta :=
  (activeParams rs t).filterMap
    (fun p => (resolveParam rs t p).map (fun v => ⟨p, lookupCur cur p, v⟩))

/-- Ruleset lookup by name, the join t.ruleset = rs.ruleset: a matchgroup
whose ruleset name is bound to no ruleset (such as the empty string) joins
no rule rows. -/
def rulesetFor (rsets : List (String × Ruleset)) (nm : String) : Ruleset :=
  match rsets.find? (fun kv => kv.1 == nm) with
  | some kv => kv.2
  | none => []

/-- Ruleset reached by a relation through its assigned matchgroup. -/
def assignedRuleset (rmatch rmatchCI : String → String → Bool)
    (gs : List Matchgroup) (rsets : List (String × Ruleset)) (r : Relation) :
    Option Ruleset :=
  (assignedGroupNum rmatch rmatchCI gs r).bind
    (fun i => (gs[i - 1]?).map (fun g => rulesetFor rsets g.ruleset))

/-- Deltas of one relation through the full match, resolve and diff
pipeline, for the given snapshot of its current parameters. -/
def runDeltas (rmatch rmatchCI : String → String → Bool)
    (gs : List Matchgroup) (rsets : List (String × Ruleset)) (r : Relation)
    (cur : CurParams) : List Delta :=
  match assignedRuleset rmatch rmatchCI gs rsets r with
  | some rs => deltas rs r.reltuples cur
  | none => []

/-- True when RuleMatchQuery emits a TableMatch row for the relation:
json_object_agg produces a row exactly when at least one delta row exists. -/
def relationEmitted (rmatch rmatchCI : String → String → Bool)
    (gs : List Matchgroup) (rsets : List (String × Ruleset)) (r : Relation)
    (cur : CurParams) : Bool :=
  match assignedRuleset rmatch rmatchCI gs rsets r with
  | some rs => !(deltas rs r.reltuples cur).isEmpty
  | none => false

/-- True when RuleMatchDisplayModeQuery emits a row for the relation. -/
def relationDisplayed (rmatch rmatchCI : String → String → Bool)
    (gs : List Matchgroup) (rsets : List (String × Ruleset)) (r : Relation)
    (cur : CurParams) : Bool :=
  match assignedRuleset rmatch rmatchCI gs rsets r with
  | some rs => !(displayRows rs r.reltuples cur).isEmpty
  | none => false

theorem resolveParam_isSome_of_activeParam (rs : Ruleset) (t : Int) (p : String)
    (h : p ∈ activeParams rs t) : ∃ v, resolveParam rs t p = some v := by
  rw [activeParams, List.mem_dedup] at h
  rcases List.mem_flatMap.mp h with ⟨r, hr, hp⟩
  have hm : mentions r p = true := by
    rcases List.mem_map.mp hp with ⟨s, hs, hfst⟩
    rw [mentions]
    have : ∃ x ∈ r.settings, ((fun s => s.1 == p) x) = true :=
      ⟨s, hs, by simp [hfst]⟩
    simpa [List.find?_isSome] using this
  have hrF : r ∈ (activeRules rs t).filter (fun r => mentions r p) :=
    List.mem_filter.mpr ⟨hr, hm⟩
  cases hL : lastElem? ((activeRules rs t).filter (fun r => mentions r p)) with
  | none => rw [lastElem?_eq_none hL] at hrF; simp at hrF
  | some r0 =>
    have h0 : mentions r0 p = true := (List.mem_filter.mp (lastElem?_mem hL)).2
    rcases lookupSetting_of_mentions h0 with ⟨v, hv⟩
    exact ⟨v, by rw [resolveParam, hL]; simpa using hv⟩

theorem deltaFor_fields (cur : CurParams) (p : String) (v : Option String)
    (d : Delta) (h : deltaFor cur p v = some d) :
    d.parameter = p ∧ d.newsetting = v := by
  cases v with
  | none =>
    rw [deltaFor] at h
    cases hc : lookupCur cur p <;> rw [hc] at h
    · simp at h
    · simp at h
      rw [← h]
      exact ⟨rfl, rfl⟩
  | some x =>
    rw [deltaFor] at h
    by_cases hc : lookupCur cur p = some x
    · rw [if_pos hc] at h; simp at h
    · rw [if_neg hc] at h
      simp at h
      rw [← h]
      exact ⟨rfl, rfl⟩

theorem mem_deltas (rs : Ruleset) (t : Int) (cur : CurParams) (d : Delta) :
    d ∈ deltas rs t cur ↔ ∃ p ∈ activeParams rs t, ∃ v,
      resolveParam rs t p = some v ∧ deltaFor cur p v = some d := by
  rw [deltas, List.mem_filterMap]
  constructor
  · rintro ⟨p, hp, hbind⟩
    rcases Option.bind_eq_some.mp hbind with ⟨v, hv, hd⟩
    exact ⟨p, hp, v, hv, hd⟩
  · rintro ⟨p, hp, v, hv, hd⟩
    exact ⟨p, hp, by rw [hv]; simpa using hd⟩

theorem deltaFor_congr (cur cur' : CurParams) (p : String) (v : Option String)
    (h : lookupCur cur' p = lookupCur cur p) :
    deltaFor cur' p v = deltaFor cur p v := by
  cases v <;> simp [deltaFor, h]

theorem displayRows_isEmpty (rs : Ruleset) (t : Int) (cur : CurParams) :
    (displayRows rs t cur).isEmpty = (activeParams rs t).isEmpty := by
  cases h : activeParams rs t with
  | nil => simp [displayRows, h]
  | cons p ps =>
    rcases resolveParam_isSome_of_activeParam rs t p
        (by rw [h]; exact List.mem_cons_self _ _) with ⟨v, hv⟩
    simp [displayRows, h, List.filterMap_cons, hv]

/-- Demonstration matcher used in counterexamples and witnesses: every value
matches every pattern. -/
def rmatchAll : String → String → Bool := fun _ _ => true

/-- Matchgroup matching everything, bound to ruleset a. -/
def mgAll : Matchgroup := ⟨".*", ".*", ".*", false, "a"⟩

/-- Ruleset configuration with a single rule at threshold 1000. -/
def rsetsEx : List (String × Ruleset) := [("a", [⟨1000, [("p", some "x")]⟩])]

/-- Relation with 500 estimated rows, below the only rule threshold. -/
def relSmall : Relation := ⟨"public", "t1", "o", 'p', 'r', 500⟩

/-- Claim C3 (diff and emission): the delta cases are as claimed, a
TableMatch is emitted iff the delta map is non-empty, and in display mode a
matched relation is surfaced iff at least one parameter is referenced by an
active rule, independently of its current values. -/
theorem c3_diff_deltas (cur : CurParams) (p : String) (v : String) :
    (∀ o, lookupCur cur p = some o →
      deltaFor cur p none = some ⟨p, some o, none⟩)
    ∧ (lookupCur cur p = none → deltaFor cur p none = none)
    ∧ (lookupCur cur p ≠ some v →
      deltaFor cur p (some v) = some ⟨p, lookupCur cur p, some v⟩)
    ∧ (lookupCur cur p = some v → deltaFor cur p (some v) = none)
    ∧ (∀ (rmatch rmatchCI : String → String → Bool) gs rsets r,
        relationEmitted rmatch rmatchCI gs rsets r cur = true ↔
          runDeltas rmatch rmatchCI gs rsets r cur ≠ [])
    ∧ (∀ (rmatch rmatchCI : String → String → Bool) gs rsets r,
        relationDisplayed rmatch rmatchCI gs rsets r cur =
          (match assignedRuleset rmatch rmatchCI gs rsets r with
           | some rs => !(activeParams rs r.reltuples).isEmpty
           | none => false)) := by
  refine ⟨?_, ?_, ?_, ?_, ?_, ?_⟩
  · intro o ho; simp [deltaFor, ho]
  · intro ho; simp [deltaFor, ho]
  · intro hne; simp [deltaFor, hne]
  · intro he; simp [deltaFor, he]
  · intro rmatch rmatchCI gs rsets r
    rw [relationEmitted, runDeltas]
    cases assignedRuleset rmatch rmatchCI gs rsets r <;> simp
  · intro rmatch rmatchCI gs rsets r
    rw [relationDisplayed]
    cases assignedRuleset rmatch rmatchCI gs rsets r <;> simp [displayRows_isEmpty]

/-- Claim C3 counterexample to the claim as stated: relSmall is assigned to
matchgroup 1, yet the display-mode query emits no row for it, because its
ruleset has no rule active at 500 rows; so not every matched relation is
surfaced in display mode. -/
theorem c3_display_counterexample :
    assignedGroupNum rmatchAll rmatchAll [mgAll] relSmall = some 1
    ∧ relationDisplayed rmatchAll rmatchAll [mgAll] rsetsEx relSmall [] = false := by
  decide

theorem c3_diff_deltas_witness :
    deltaFor [("fillfactor", "90")] "fillfactor" (some "80")
      = some ⟨"fillfactor", some "90", some "80"⟩ := by
  have h := (c3_diff_deltas [("fillfactor", "90")] "fillfactor" "80").2.2.1
  rw [h]
  · decide
  · decide

theorem deltas_applied_nil (rs : Ruleset) (t : Int) (cur cur' : CurParams)
    (h1 : ∀ d ∈ deltas rs t cur, lookupCur cur' d.parameter = d.newsetting)
    (h2 : ∀ p : String, (∀ d ∈ deltas rs t cur, d.parameter ≠ p) →
      lookupCur cur' p = lookupCur cur p) :
    deltas rs t cur' = [] := by
  rw [deltas, List.filterMap_eq_nil_iff]
  intro p hp
  rcases resolveParam_isSome_of_activeParam rs t p hp with ⟨v, hv⟩
  rw [hv]
  simp only [Option.some_bind]
  cases hd : deltaFor cur p v with
  | some d =>
    rcases deltaFor_fields cur p v d hd with ⟨hdp, hdn⟩
    have hdin : d ∈ deltas rs t cur := (mem_deltas rs t cur d).mpr ⟨p, hp, v, hv, hd⟩
    have hl := h1 d hdin
    rw [hdp, hdn] at hl
    cases v with
    | none => simp [deltaFor, hl]
    | some x => simp [deltaFor, hl]
  | none =>
    have hnone : ∀ d ∈ deltas rs t cur, d.parameter ≠ p := by
      intro d hdin hdp
      rcases (mem_deltas rs t cur d).mp hdin with ⟨q, _, w, hw, hdq⟩
      have hq : d.parameter = q := (deltaFor_fields cur q w d hdq).1
      rw [hdp] at hq
      rw [← hq] at hw
      rw [hv] at hw
      have hvw : v = w := by injection hw
      rw [← hvw] at hdq
      rw [← hq] at hdq
      rw [hd] at hdq
      exact absurd hdq (by simp)
    rw [deltaFor_congr cur cur' p v (h2 p hnone), hd]

/-- Claim C4: running match, resolve and diff a second time against a
snapshot in which the first runs deltas have all been applied (each set
parameter now equal to its resolved value, each reset parameter now unset)
and nothing else changed produces an empty delta set, so no TableMatch is
emitted on the second run. -/
theorem c4_second_run_empty (rmatch rmatchCI : String → String → Bool)
    (gs : List Matchgroup) (rsets : List (String × Ruleset)) (r : Relation)
    (cur cur' : CurParams)
    (h1 : ∀ d ∈ runDeltas rmatch rmatchCI gs rsets r cur,
      lookupCur cur' d.parameter = d.newsetting)
    (h2 : ∀ p : String, (∀ d ∈ runDeltas rmatch rmatchCI gs rsets r cur,
      d.parameter ≠ p) → lookupCur cur' p = lookupCur cur p) :
    runDeltas rmatch rmatchCI gs rsets r cur' = []
    ∧ relationEmitted rmatch rmatchCI gs rsets r cur' = false := by
  cases ha : assignedRuleset rmatch rmatchCI gs rsets r with
  | none => simp [runDeltas, relationEmitted, ha]
  | some rs =>
    simp only [runDeltas, ha] at h1 h2
    have hnil := deltas_applied_nil rs r.reltuples cur cur' h1 h2
    simp [runDeltas, relationEmitted, ha, hnil]

/-- Ruleset configuration for the idempotence witness: one rule at
threshold 0 setting q to x. -/
def rsetsW : List (String × Ruleset) := [("a", [⟨0, [("q", some "x")]⟩])]

/-- Relation with 5 estimated rows for the idempotence witness. -/
def relW : Relation := ⟨"public", "t2", "o", 'p', 'r', 5⟩

theorem c4_second_run_empty_witness :
    runDeltas rmatchAll rmatchAll [mgAll] rsetsW relW [("q", "x")] = []
    ∧ relationEmitted rmatchAll rmatchAll [mgAll] rsetsW relW [("q", "x")] = false := by
  refine c4_second_run_empty rmatchAll rmatchAll [mgAll] rsetsW relW [] [("q", "x")] ?_ ?_
  · decide
  · intro p h
    have hq : ¬ (("q" : String) = p) := h ⟨"q", none, some "x"⟩ (by decide)
    have hbeq : (("q" : String) == p) = false := beq_eq_false_iff_ne.mpr hq
    simp [lookupCur, List.find?, hbeq]

/-- Substring occurrence over character lists: true when pat occurs at some
position (unanchored regexp search). -/
def containsSub (pat : List Char) : List Char → Bool
  | [] => pat.isEmpty
  | c :: rest => pat.isPrefixOf (c :: rest) || containsSub pat rest

/-- Second group of the lock-strength regexp of UpdateTableOptions:
vacuum_ or toast_ starting at the current position, or fillfactor or
parallel_workers immediately followed by the end anchor. -/
def altMatchAt (t : List Char) : Bool :=
  "vacuum_".toList.isPrefixOf t || "toast_".toList.isPrefixOf t
  || t == "fillfactor".toList || t == "parallel_workers".toList

/-- Occurrence of toast. followed by the second group, at any position. -/
def toastDotAlt : List Char → Bool
  | [] => false
  | c :: rest =>
    ("toast.".toList.isPrefixOf (c :: rest) && altMatchAt ((c :: rest).drop 6))
    || toastDotAlt rest

/-- Semantics of the Go regexp
autovacuum|(?:toast\.|^)(?:vacuum_|toast_|fillfactor$|parallel_workers$)
compiled in UpdateTableOptions: an unanchored search, so a parameter name
matches when it contains autovacuum anywhere, or starts with the second
group (the ^ branch), or contains toast. followed by that group. -/
def sharelockMatches (s : String) : Bool :=
  containsSub "autovacuum".toList s.toList || altMatchAt s.toList
  || toastDotAlt s.toList

/-- Old and new settings of one parameter of a TableMatch. -/
structure TableMatchOption where
  oldSetting : Option String
  newSetting : Option String
deriving DecidableEq

/-- The options map of one TableMatch, keyed by parameter name. -/
abbrev TMOptions := List (String × TableMatchOption)

/-- The usesharelock loop of UpdateTableOptions: usesharelock starts true
and is cleared when any option key fails the regexp. -/
def usesharelock (opts : TMOptions) : Bool :=
  opts.foldl (fun acc kv => if !sharelockMatches kv.1 then false else acc) true

/-- The two lock strengths requested by UpdateTableOptions. -/
inductive LockMode
  | accessExclusive
  | shareUpdateExclusive
deriving DecidableEq

/-- Lock mode selection of UpdateTableOptions: share update exclusive when
usesharelock holds, otherwise access exclusive. -/
def lockModeFor (opts : TMOptions) : LockMode :=
  if usesharelock opts then LockMode.shareUpdateExclusive
  else LockMode.accessExclusive

theorem usesharelock_eq_all (opts : TMOptions) :
    usesharelock opts = opts.all (fun kv => sharelockMatches kv.1) := by
  rw [usesharelock]
  have hgo : ∀ (l : TMOptions) (acc : Bool),
      l.foldl (fun acc kv => if !sharelockMatches kv.1 then false else acc) acc
        = (acc && l.all (fun kv => sharelockMatches kv.1)) := by
    intro l
    induction l with
    | nil => intro acc; simp
    | cons kv l ih =>
      intro acc
      rw [List.foldl_cons, List.all_cons, ih]
      cases hs : sharelockMatches kv.1 <;> cases acc <;> simp [hs]
  rw [hgo]
  simp

/-- Claim C5: the lock-strength selection requests the weaker share update
exclusive lock iff every parameter name in the delta map matches the fixed
low-impact regexp; one parameter outside it forces the access exclusive
lock; a delta set of only autovacuum_vacuum_scale_factor selects the weaker
lock. -/
theorem c5_lock_strength (opts : TMOptions) :
    (lockModeFor opts = LockMode.shareUpdateExclusive ↔
      ∀ kv ∈ opts, sharelockMatches kv.1 = true)
    ∧ (∀ kv ∈ opts, sharelockMatches kv.1 = false →
        lockModeFor opts = LockMode.accessExclusive)
    ∧ lockModeFor [("autovacuum_vacuum_scale_factor", ⟨some "0.2", some "0"⟩)]
        = LockMode.shareUpdateExclusive := by
  have hall : lockModeFor opts = LockMode.shareUpdateExclusive ↔
      opts.all (fun kv => sharelockMatches kv.1) = true := by
    rw [lockModeFor, usesharelock_eq_all]
    cases opts.all (fun kv => sharelockMatches kv.1) <;> simp
  have hiff : lockModeFor opts = LockMode.shareUpdateExclusive ↔
      ∀ kv ∈ opts, sharelockMatches kv.1 = true := by
    rw [hall]
    exact List.all_eq_true
  refine ⟨hiff, ?_, by decide⟩
  intro kv hkv hfalse
  cases hm : lockModeFor opts with
  | accessExclusive => rfl
  | shareUpdateExclusive =>
    have := hiff.mp hm kv hkv
    rw [hfalse] at this
    exact absurd this (by simp)

theorem c5_lock_strength_witness :
    lockModeFor [("fillfactor", ⟨some "90", some "80"⟩),
        ("buffering", ⟨none, some "off"⟩)]
      = LockMode.accessExclusive :=
  (c5_lock_strength [("fillfactor", ⟨some "90", some "80"⟩),
      ("buffering", ⟨none, some "off"⟩)]).2.1
    ("buffering", ⟨none, some "off"⟩) (by decide) (by decide)

/-- Outcome of the lock table statement issued by UpdateTableOptions:
acquired, failed with SQLSTATE lock_not_available without a timeout message
(nowait), failed with a lock timeout, or failed with any other error. -/
inductive LockOutcome
  | acquired
  | notAvailable
  | timedOut
  | failedOther
deriving DecidableEq

/-- Oracle for the database effects of one UpdateTableOptions call: the lock
statement outcome, which alter statements succeed, and whether the final
commit succeeds. -/
structure DBEnv where
  lockOutcome : LockOutcome
  alterOk : String → Bool
  commitOk : Bool

/-- One entry of UpdateTableOptionsResult.SettingSuccess. -/
structure SettingSuccess where
  setting : String
  success : Bool
deriving DecidableEq

/-- Errors surfaced by UpdateTableOptions: the distinguished
AcquireLockError, whose message distinguishes the timed-out case, or any
other error. -/
inductive UTOError
  | acquireLock (timedOut : Bool)
  | other
deriving DecidableEq

/-- Result of one modelled UpdateTableOptions call: the SettingSuccess
slice, the returned error if any, and the parameter changes that remain
committed in the database afterwards. -/
structure UTOOutcome where
  settingSuccess : List SettingSuccess
  error : Option UTOError
  applied : List (String × Option String)
deriving DecidableEq

/-- Character order by code point, for the sort.Strings model. -/
def strListLE : List Char → List Char → Bool
  | [], _ => true
  | _ :: _, [] => false
  | a :: as, b :: bs => if a = b then strListLE as bs else decide (a.toNat < b.toNat)

/-- Lexicographic string order modelling sort.Strings. -/
def strLE (a b : String) : Bool := strListLE a.toList b.toList

/-- Ordered insertion for the key sort. -/
def insertKey (k : String) : List String → List String
  | [] => [k]
  | a :: l => if strLE k a then k :: a :: l else a :: insertKey k l

/-- Sorted option keys of one TableMatch: sort.Strings over the keys of the
options map (UpdateTableOptions sortedkeys). -/
def sortedKeys (opts : TMOptions) : List String :=
  (opts.map Prod.fst).foldr insertKey []

/-- New setting of parameter k in the options map (match.Options[val]). -/
def newSettingOf (opts : TMOptions) (k : String) : Option String :=
  match opts.find? (fun kv => kv.1 == k) with
  | some kv => kv.2.newSetting
  | none => none

/-- Zero-valued SettingSuccess slice allocated by
make with length len(match.Options) in UpdateTableOptions; later entries
are appended after it. -/
def initSettingSuccess (opts : TMOptions) : List SettingSuccess :=
  List.replicate opts.length ⟨"", false⟩

/-- Per-parameter loop of UpdateTableOptions over the remaining sorted keys,
returning the appended SettingSuccess entries and the committed parameter
changes in key order: in dry-run mode each key is reported successful
without execution; otherwise each key runs its alter statement inside a
nested subtransaction, and a failure rolls back only that subtransaction
and records an unsuccessful entry while the loop continues. -/
def applyLoopGo (env : DBEnv) (opts : TMOptions) (dryrun : Bool) :
    List String → List SettingSuccess × List (String × Option String)
  | [] => ([], [])
  | k :: ks =>
    if dryrun then
      (⟨k, true⟩ :: (applyLoopGo env opts dryrun ks).1,
        (applyLoopGo env opts dryrun ks).2)
    else if env.alterOk k then
      (⟨k, true⟩ :: (applyLoopGo env opts dryrun ks).1,
        (k, newSettingOf opts k) :: (applyLoopGo env opts dryrun ks).2)
    else
      (⟨k, false⟩ :: (applyLoopGo env opts dryrun ks).1,
        (applyLoopGo env opts dryrun ks).2)

/-- Per-parameter loop of UpdateTableOptions: the SettingSuccess entries are
appended after the zero-valued allocation, over the keys in sorted order. -/
def applyLoop (env : DBEnv) (opts : TMOptions) (dryrun : Bool) :
    List SettingSuccess × List (String × Option String) :=
  (initSettingSuccess opts ++ (applyLoopGo env opts dryrun (sortedKeys opts)).1,
    (applyLoopGo env opts dryrun (sortedKeys opts)).2)

/-- Model of UpdateTableOptions: a lock failure rolls the transaction back
and returns the distinguished error with the result as allocated; with the
lock held the per-parameter loop runs and the outer transaction commits
regardless of individual alter outcomes; a commit failure rolls back (so no
change persists) and returns the error. -/
def updateTableOptions (env : DBEnv) (opts : TMOptions) (dryrun : Bool) :
    UTOOutcome :=
  match env.lockOutcome with
  | LockOutcome.notAvailable =>
    ⟨initSettingSuccess opts, some (UTOError.acquireLock false), []⟩
  | LockOutcome.timedOut =>
    ⟨initSettingSuccess opts, some (UTOError.acquireLock true), []⟩
  | LockOutcome.failedOther =>
    ⟨initSettingSuccess opts, some UTOError.other, []⟩
  | LockOutcome.acquired =>
    let res := applyLoop env opts dryrun
    if env.commitOk then ⟨res.1, none, res.2⟩
    else ⟨res.1, some UTOError.other, []⟩

/-- Actions of the phase-1 worker in main after one apply call. -/
inductive Phase1Action
  | reported
  | forwardedForRetry
  | fatal
deriving DecidableEq

/-- Phase-1 error branching of main: an AcquireLockError is reported and
abandoned under skip-locked, otherwise the table is forwarded to the retry
collector; any other error is fatal (log.Fatal); no error reports the
result. -/
def phase1Handle (skipLocked : Bool) (e : Option UTOError) : Phase1Action :=
  match e with
  | none => Phase1Action.reported
  | some (UTOError.acquireLock _) =>
    if skipLocked then Phase1Action.reported else Phase1Action.forwardedForRetry
  | some UTOError.other => Phase1Action.fatal

/-- Actions of the phase-2 worker in main after one apply call. -/
inductive Phase2Action
  | reported
  | warnedUnmodified
  | fatal
deriving DecidableEq

/-- Phase-2 error branching of main: an AcquireLockError is only warned
about and the table stays unmodified; any other error is fatal. -/
def phase2Handle (e : Option UTOError) : Phase2Action :=
  match e with
  | none => Phase2Action.reported
  | some (UTOError.acquireLock _) => Phase2Action.warnedUnmodified
  | some UTOError.other => Phase2Action.fatal

theorem applyLoopGo_eq (env : DBEnv) (opts : TMOptions) (dryrun : Bool)
    (ks : List String) :
    applyLoopGo env opts dryrun ks
      = (ks.map (fun k => ⟨k, dryrun || env.alterOk k⟩),
        if dryrun then []
        else (ks.filter env.alterOk).map (fun k => (k, newSettingOf opts k))) := by
  induction ks with
  | nil => cases dryrun <;> simp [applyLoopGo]
  | cons k ks ih =>
    rw [applyLoopGo]
    cases dryrun with
    | true => simp [ih]
    | false =>
      cases ha : env.alterOk k with
      | true => simp [ih, ha, List.filter_cons]
      | false => simp [ih, ha, List.filter_cons]

theorem applyLoop_eq (env : DBEnv) (opts : TMOptions) (dryrun : Bool) :
    applyLoop env opts dryrun =
      (initSettingSuccess opts
          ++ (sortedKeys opts).map (fun k => ⟨k, dryrun || env.alterOk k⟩),
        if dryrun then []
        else ((sortedKeys opts).filter env.alterOk).map
          (fun k => (k, newSettingOf opts k))) := by
  rw [applyLoop, applyLoopGo_eq]

/-- Claim C6: with the table lock acquired and the outer commit succeeding,
each parameter delta is applied in its own subtransaction: a failing alter
is recorded against that parameter only, every other parameter is still
attempted, the failing parameter change does not persist while the
successful ones do, the call returns no error regardless of individual
alter outcomes, and an error is returned only when the lock or the commit
failed. -/
theorem c6_per_parameter_isolation (env : DBEnv) (opts : TMOptions)
    (hlock : env.lockOutcome = LockOutcome.acquired)
    (hcommit : env.commitOk = true) :
    (updateTableOptions env opts false).error = none
    ∧ (updateTableOptions env opts false).settingSuccess
        = initSettingSuccess opts
          ++ (sortedKeys opts).map (fun k => ⟨k, env.alterOk k⟩)
    ∧ (updateTableOptions env opts false).applied
        = ((sortedKeys opts).filter env.alterOk).map
            (fun k => (k, newSettingOf opts k))
    ∧ (∀ env' : DBEnv, (updateTableOptions env' opts false).error ≠ none →
        env'.lockOutcome ≠ LockOutcome.acquired ∨ env'.commitOk = false) := by
  have h := applyLoop_eq env opts false
  refine ⟨?_, ?_, ?_, ?_⟩
  · simp [updateTableOptions, hlock, hcommit]
  · simp [updateTableOptions, hlock, hcommit, h]
  · simp [updateTableOptions, hlock, hcommit, h]
  · intro env' he
    cases hl : env'.lockOutcome with
    | acquired =>
      cases hc : env'.commitOk with
      | true =>
        rw [updateTableOptions] at he
        rw [hl] at he
        simp [hc] at he
      | false => exact Or.inr rfl
    | notAvailable => exact Or.inl (by simp [hl])
    | timedOut => exact Or.inl (by simp [hl])
    | failedOther => exact Or.inl (by simp [hl])


/-- Oracle in which the lock is acquired, one alter statement (the one for
bad_param) fails, and the commit succeeds. -/
def envDemo : DBEnv := ⟨LockOutcome.acquired, fun k => !(k == "bad_param"), true⟩

/-- Options map used by the applier witnesses. -/
def optsDemo : TMOptions :=
  [("fillfactor", ⟨some "90", some "80"⟩), ("bad_param", ⟨none, some "1"⟩)]

theorem c6_per_parameter_isolation_witness :
    (updateTableOptions envDemo optsDemo false).error = none
    ∧ (updateTableOptions envDemo optsDemo false).applied
        = [("fillfactor", some "80")]
    ∧ SettingSuccess.mk "bad_param" false
        ∈ (updateTableOptions envDemo optsDemo false).settingSuccess := by
  have h := c6_per_parameter_isolation envDemo optsDemo rfl rfl
  refine ⟨h.1, ?_, ?_⟩
  · rw [h.2.2.1]
    decide
  · rw [h.2.1]
    decide

/-- Claim C7: the apply operation returns the distinguished AcquireLockError
(with its timed-out variant) exactly for the lock-unavailable and
lock-timeout outcomes, such a failure leaves the table unmodified and is
never fatal in either scheduler phase (phase 1 forwards the table for retry
unless skip-locked reports and abandons it; phase 2 warns), while every
other returned error is fatal in both phases. -/
theorem c7_lock_error_branching (env : DBEnv) (opts : TMOptions) (dryrun : Bool) :
    ((updateTableOptions env opts dryrun).error
        = some (UTOError.acquireLock false) ↔
      env.lockOutcome = LockOutcome.notAvailable)
    ∧ ((updateTableOptions env opts dryrun).error
        = some (UTOError.acquireLock true) ↔
      env.lockOutcome = LockOutcome.timedOut)
    ∧ (env.lockOutcome = LockOutcome.notAvailable
        ∨ env.lockOutcome = LockOutcome.timedOut →
      (updateTableOptions env opts dryrun).applied = []
      ∧ (∀ skipLocked, phase1Handle skipLocked
          (updateTableOptions env opts dryrun).error ≠ Phase1Action.fatal)
      ∧ phase2Handle (updateTableOptions env opts dryrun).error
          ≠ Phase2Action.fatal
      ∧ (∀ skipLocked, phase1Handle skipLocked
          (updateTableOptions env opts dryrun).error
        = if skipLocked then Phase1Action.reported
          else Phase1Action.forwardedForRetry)
      ∧ phase2Handle (updateTableOptions env opts dryrun).error
          = Phase2Action.warnedUnmodified)
    ∧ (∀ e, (updateTableOptions env opts dryrun).error = some e →
        (∀ b, e ≠ UTOError.acquireLock b) →
        (∀ skipLocked, phase1Handle skipLocked (some e) = Phase1Action.fatal)
        ∧ phase2Handle (some e) = Phase2Action.fatal) := by
  refine ⟨?_, ?_, ?_, ?_⟩
  · cases hl : env.lockOutcome
    case acquired =>
      simp only [updateTableOptions, hl]
      cases hc : env.commitOk <;> simp [hc]
    all_goals simp [updateTableOptions, hl]
  · cases hl : env.lockOutcome
    case acquired =>
      simp only [updateTableOptions, hl]
      cases hc : env.commitOk <;> simp [hc]
    all_goals simp [updateTableOptions, hl]
  · intro hlk
    rcases hlk with hl | hl <;>
      simp [updateTableOptions, hl, phase1Handle, phase2Handle]
  · intro e he hnotlock
    cases e with
    | acquireLock b => exact absurd rfl (hnotlock b)
    | other => exact ⟨fun _ => rfl, rfl⟩

/-- Oracle in which the nowait lock request fails immediately. -/
def envLocked : DBEnv := ⟨LockOutcome.notAvailable, fun _ => true, true⟩

theorem c7_lock_error_branching_witness :
    phase1Handle false (updateTableOptions envLocked optsDemo false).error
      = Phase1Action.forwardedForRetry
    ∧ phase2Handle (updateTableOptions envLocked optsDemo false).error
      = Phase2Action.warnedUnmodified
    ∧ (updateTableOptions envLocked optsDemo false).applied = [] := by
  have h := c7_lock_error_branching envLocked optsDemo false
  have h3 := h.2.2.1 (Or.inl rfl)
  exact ⟨by rw [h3.2.2.2.1 false]; rfl, h3.2.2.2.2, h3.1⟩

/-- Oracle in which the lock is acquired, every alter statement succeeds and
the commit succeeds. -/
def envAllOk : DBEnv := ⟨LockOutcome.acquired, fun _ => true, true⟩

/-- The dryrun argument of the phase-2 apply call in main: the retry pass
passes the literal false instead of forwarding the dry-run flag. -/
def phase2DryrunArg : Bool := false

/-- Claim C8 evaluation: within one apply call, dry-run executes no
state-changing statement and returns the same result as a fully successful
live run; but a table retried in phase 2 is applied with the hardcoded
dryrun argument false, so in dry-run mode its alter statements execute and
change the database. -/
theorem c8_dryrun_phase2_divergence :
    (updateTableOptions envAllOk optsDemo true).applied = []
    ∧ (updateTableOptions envAllOk optsDemo true).error = none
    ∧ (updateTableOptions envAllOk optsDemo true).settingSuccess
        = (updateTableOptions envAllOk optsDemo false).settingSuccess
    ∧ (∀ k ∈ sortedKeys optsDemo, SettingSuccess.mk k true
        ∈ (updateTableOptions envAllOk optsDemo true).settingSuccess)
    ∧ phase2DryrunArg = false
    ∧ (updateTableOptions envAllOk optsDemo phase2DryrunArg).applied
        = [("bad_param", some "1"), ("fillfactor", some "80")] := by
  decide

/-- Phase-1 connection pool sizing of main: connections starts with the
initial connection and the loop appends a connection for each i with
1 <= i < min(len(tablematches), jobs). -/
def phase1PoolSize (numMatches jobs : Nat) : Nat :=
  1 + (Nat.min numMatches jobs - 1)

/-- Between-phases pool reduction of main: overconns = len(connections) -
len(lockpending); when positive, that many connections are closed and
dropped from the slice. -/
def phase2PoolSize (numConns numPending : Nat) : Nat :=
  if numConns - numPending > 0 then numConns - (numConns - numPending)
  else numConns

/-- Claim C9 counterexample to the claim as stated: with 2 configured jobs
and zero TableMatches the phase-1 pool still holds the single initial
connection, not min(2, 0) = 0 connections. -/
theorem c9_pool_size_counterexample :
    phase1PoolSize 0 2 = 1 ∧ Nat.min 2 0 = 0
    ∧ phase1PoolSize 0 2 ≠ Nat.min 2 0 := by
  decide

/-- Claim C9 (amended): with at least one TableMatch the phase-1 pool size
is exactly min(configured job count, number of TableMatches); with zero
TableMatches the single initial connection remains; before phase 2 the pool
size never exceeds the number of retry-pending tables, never grows, and
equals the pending count whenever it was larger. -/
theorem c9_pool_sizes (numMatches jobs numConns numPending : Nat)
    (hj : 1 ≤ jobs) :
    (1 ≤ numMatches → phase1PoolSize numMatches jobs = Nat.min jobs numMatches)
    ∧ (numMatches = 0 → phase1PoolSize numMatches jobs = 1)
    ∧ phase2PoolSize numConns numPending ≤ numPending
    ∧ phase2PoolSize numConns numPending ≤ numConns
    ∧ (numPending < numConns → phase2PoolSize numConns numPending = numPending) := by
  refine ⟨?_, ?_, ?_, ?_, ?_⟩
  · intro hm
    simp only [phase1PoolSize, Nat.min_def]
    split <;> split <;> omega
  · intro hm
    simp only [phase1PoolSize, Nat.min_def, hm]
    split <;> omega
  · rw [phase2PoolSize]
    split <;> omega
  · rw [phase2PoolSize]
    split <;> omega
  · intro hlt
    rw [phase2PoolSize]
    split <;> omega

theorem c9_pool_sizes_witness :
    phase1PoolSize 3 2 = 2 ∧ phase2PoolSize 2 1 = 1 := by
  have h := c9_pool_sizes 3 2 2 1 (by decide)
  exact ⟨(h.1 (by decide)).trans (by decide), h.2.2.2.2 (by decide)⟩

/-- Run statistics counters of main (RunStats); the Go zero value starts
every counter at zero. -/
structure RunStats where
  tablesMatched : Nat
  mviewsMatched : Nat
  parametersMatched : Nat
  parametersAttempted : Nat
  parametersSet : Nat
  parametersErrored : Nat
deriving DecidableEq

/-- Zero value of RunStats (var runstats RunStats in main). -/
def RunStats.init : RunStats := ⟨0, 0, 0, 0, 0, 0⟩

/-- Loop body of RunStats.UpdateFromResult for one SettingSuccess entry:
ParametersAttempted is incremented, then exactly one of ParametersSet or
ParametersErrored by the success flag. -/
def RunStats.step (rs : RunStats) (v : SettingSuccess) : RunStats :=
  if v.success then
    { rs with parametersAttempted := rs.parametersAttempted + 1,
              parametersSet := rs.parametersSet + 1 }
  else
    { rs with parametersAttempted := rs.parametersAttempted + 1,
              parametersErrored := rs.parametersErrored + 1 }

/-- RunStats.UpdateFromResult: merge one table result into the aggregate
(the source takes the mutex around this loop). -/
def RunStats.updateFromResult (rs : RunStats) (result : UTOOutcome) : RunStats :=
  result.settingSuccess.foldl RunStats.step rs

theorem runStats_foldl_counts (ss : List SettingSuccess) :
    ∀ st : RunStats,
      (ss.foldl RunStats.step st).parametersAttempted
          = st.parametersAttempted + ss.length
      ∧ (ss.foldl RunStats.step st).parametersSet
          = st.parametersSet + ss.countP (fun v => v.success)
      ∧ (ss.foldl RunStats.step st).parametersErrored
          = st.parametersErrored + ss.countP (fun v => !v.success)
      ∧ (ss.foldl RunStats.step st).tablesMatched = st.tablesMatched
      ∧ (ss.foldl RunStats.step st).mviewsMatched = st.mviewsMatched
      ∧ (ss.foldl RunStats.step st).parametersMatched = st.parametersMatched := by
  induction ss with
  | nil => intro st; simp
  | cons v ss ih =>
    intro st
    rw [List.foldl_cons]
    rcases ih (RunStats.step st v) with ⟨h1, h2, h3, h4, h5, h6⟩
    rw [h1, h2, h3, h4, h5, h6]
    rw [RunStats.step]
    cases hv : v.success <;> simp [List.countP_cons, hv] <;> omega

/-- Claim C10: the statistics counters start at zero and every merge of a
table result increments ParametersAttempted once per SettingSuccess entry
and exactly one of ParametersSet or ParametersErrored per entry by its
success flag, preserving ParametersAttempted = ParametersSet +
ParametersErrored. -/
theorem c10_runstats_invariant (rs : RunStats) (result : UTOOutcome)
    (hinv : rs.parametersAttempted = rs.parametersSet + rs.parametersErrored) :
    (RunStats.init.parametersAttempted = 0 ∧ RunStats.init.parametersSet = 0
      ∧ RunStats.init.parametersErrored = 0)
    ∧ (rs.updateFromResult result).parametersAttempted
        = rs.parametersAttempted + result.settingSuccess.length
    ∧ (rs.updateFromResult result).parametersSet
        = rs.parametersSet + result.settingSuccess.countP (fun v => v.success)
    ∧ (rs.updateFromResult result).parametersErrored
        = rs.parametersErrored
          + result.settingSuccess.countP (fun v => !v.success)
    ∧ (rs.updateFromResult result).parametersAttempted
        = (rs.updateFromResult result).parametersSet
          + (rs.updateFromResult result).parametersErrored := by
  have hc := runStats_foldl_counts result.settingSuccess rs
  have htot : result.settingSuccess.countP (fun v => v.success)
      + result.settingSuccess.countP (fun v => !v.success)
      = result.settingSuccess.length := by
    induction result.settingSuccess with
    | nil => simp
    | cons v ss ih =>
      cases hv : v.success <;> simp [List.countP_cons, hv] <;> omega
  rcases hc with ⟨h1, h2, h3, _, _, _⟩
  rw [RunStats.updateFromResult]
  rw [h1, h2, h3]
  refine ⟨⟨rfl, rfl, rfl⟩, rfl, rfl, rfl, ?_⟩
  omega

/-- Result merged by the statistics witness: one successful and one failed
parameter entry. -/
def resultDemo : UTOOutcome := ⟨[⟨"a", true⟩, ⟨"b", false⟩], none, []⟩

theorem c10_runstats_invariant_witness :
    (RunStats.init.updateFromResult resultDemo).parametersAttempted = 2
    ∧ (RunStats.init.updateFromResult resultDemo).parametersSet = 1
    ∧ (RunStats.init.updateFromResult resultDemo).parametersErrored = 1 := by
  have h := c10_runstats_invariant RunStats.init resultDemo rfl
  exact ⟨(h.2.1).trans (by decide), (h.2.2.1).trans (by decide),
    (h.2.2.2.1).trans (by decide)⟩

end Pgstratify
